import Mathlib

/-!
Shallow embedding of `pkg/git/GitCliManager.go` from the git-sensor
repository: command-argument construction for history queries, decoding of
the custom quasi-JSON log output, single-commit show resolution, repository
opening, and diff-stat delegation.

External collaborators (process execution, the JSON codec of the standard
library, the diff-stat fetcher defined in other files of the repository)
are passed in as explicit parameters: the embedded functions receive the
captured command output as a string argument, and the JSON decoding step is
a function parameter, so every theorem about control flow and data
construction holds for any behaviour of those collaborators.
-/

/-- Go `error` values, as far as this module distinguishes them: a stat
not-found error (`os.IsNotExist` returns true exactly on this) and any
other error carrying a message. A Go `error` return is `Option GoError`,
with `none` standing for `nil`. -/
inductive GoError where
  | notExist : GoError
  | ioError : String → GoError
deriving Repr, DecidableEq

/-- Embeds `os.IsNotExist(err)`: true exactly on the not-found error. -/
def isNotExist : Option GoError → Bool
  | some GoError.notExist => true
  | _ => false

/-- Modelled from the spec: the committer sub-record of the per-commit JSON
fragment, `"commiter":{"name":...,"email":...,"date":...}` (§6); the struct
`GitCommitFormat` itself is declared outside the provided source file, but
its fields are fixed by their uses in `processGitLogOutput`. -/
structure Commiter where
  Name : String
  Email : String
  Date : String
deriving Repr, DecidableEq

/-- Modelled from the spec: the decoded per-commit fragment (commit hash,
committer name/email/date, subject line, body text), §4.2 step 4; declared
outside the provided source file, fields fixed by `processGitLogOutput`. -/
structure GitCommitFormat where
  Commit : String
  Commiter : Commiter
  Subject : String
  Body : String
deriving Repr, DecidableEq

/-- Modelled from the spec: the Commit entity (§3); declared outside the
provided source file, fields fixed by the construction in
`processGitLogOutput` (lines 168-174 of GitCliManager.go). -/
structure GitCommitBase where
  Commit : String
  Author : String
  Date : String
  Message : String
  CheckoutPath : String
deriving Repr, DecidableEq

/-- The CLI-backend commit wrapper constructed by `processGitLogOutput`. -/
structure GitCommitCli where
  GitCommitBase : GitCommitBase
deriving Repr, DecidableEq

/-- Modelled from the spec: the `GetCommit()` accessor of the `GitCommit`
interface (declared outside the provided source file), returning the
underlying commit record; used by `GetCommitStats`. -/
def GetCommit (c : GitCommitCli) : GitCommitBase := c.GitCommitBase

/-- The repository handle returned by `OpenRepoPlain`: purely a path
holder. -/
structure GitRepository where
  rootDir : String
deriving Repr, DecidableEq

/-- The type of the JSON decoding step `json.Unmarshal` (standard library,
external collaborator): given the repaired text, either a decode error or
the list of per-commit fragments. -/
abbrev JsonUnmarshal := String → Except GoError (List GitCommitFormat)

/-- Modelled from the spec: the per-commit output template constant
`GITFORMAT`, defined outside the provided source file (§6 gives the
fragment shape it emits). Its exact value never matters to the claims,
which treat it as the opaque final argument of the log command. -/
def GITFORMAT : String := "--pretty=format:json-fragment"

/-- Embeds `logOut[:len(logOut)-1]` (line 156, comment: Remove the last
","): drops the final character of the string. (Go slices the final byte;
for the ASCII separator the two coincide.) -/
def stripLast (s : String) : String := ⟨s.data.dropLast⟩

/-- Embeds `processGitLogOutput` (lines 151-180). Empty output returns an
empty list and nil error; otherwise the last character is dropped, the rest
is wrapped in `[` `]`, handed to the JSON codec `u`, and on success each
fragment becomes a `GitCommitCli` with the concatenated author and message
fields. The Go function returns the pair `([]GitCommit, error)`; both
components are kept so that "no partial batch alongside an error" is a fact
to prove, not a consequence of the modelling type. -/
def processGitLogOutput (u : JsonUnmarshal) (out : String) (rootDir : String) :
    List GitCommitCli × Option GoError :=
  if out.length == 0 then ([], none)
  else
    let logOut := stripLast out
    let logOut := "[" ++ logOut ++ "]"
    match u logOut with
    | Except.error e => ([], some e)
    | Except.ok gitCommitFormattedList =>
        (gitCommitFormattedList.map (fun formattedCommit =>
          { GitCommitBase :=
            { Commit := formattedCommit.Commit
              Author := formattedCommit.Commiter.Name ++ " <" ++
                formattedCommit.Commiter.Email ++ ">"
              Date := formattedCommit.Commiter.Date
              Message := formattedCommit.Subject ++ "\n" ++ formattedCommit.Body
              CheckoutPath := rootDir } }), none)

/-- Embeds `getCommandForLogRange` (lines 127-136). `from`/`to` are Lean
keywords, hence `fromHash`/`toHash`. -/
def getCommandForLogRange (branchRef fromHash toHash : String)
    (rangeCmdArgs baseCmdArgs extraCmdArgs : List String) : List String :=
  let rangeCmdArgs :=
    if fromHash ≠ "" ∧ toHash ≠ "" then [fromHash ++ "^.." ++ toHash]
    else if fromHash ≠ "" then [fromHash ++ "^.." ++ branchRef]
    else if toHash ≠ "" then [toHash]
    else rangeCmdArgs
  baseCmdArgs ++ (rangeCmdArgs ++ extraCmdArgs)

/-- The argument-list construction of `GetCommits` (lines 108-111):
base arguments, default range `[branchRef]`, extra arguments with the
count cap, date format and output template. -/
def gitLogCmdArgs (branchRef rootDir : String) (numCommits : Int)
    (fromHash toHash : String) : List String :=
  let baseCmdArgs := ["-C", rootDir, "log"]
  let rangeCmdArgs := [branchRef]
  let extraCmdArgs := ["-n", toString numCommits, "--date=iso-strict", GITFORMAT]
  getCommandForLogRange branchRef fromHash toHash rangeCmdArgs baseCmdArgs extraCmdArgs

/-- Embeds the output-handling tail of `GetCommits` (lines 115-124): a
process-level error returns `(nil, err)` without decoding; otherwise the
captured output is decoded, a decode error returns `(nil, err)`, success
returns the commits. -/
def GetCommits (u : JsonUnmarshal) (runErr : Option GoError) (output : String)
    (rootDir : String) : List GitCommitCli × Option GoError :=
  match runErr with
  | some e => ([], some e)
  | none =>
      let pr := processGitLogOutput u output rootDir
      if pr.2.isSome then ([], pr.2) else (pr.1, none)

/-- Embeds `GitShow` (lines 138-149). The process runner's own error is
shadowed by the decode error in the Go source (line 143 reassigns `err`),
so only the captured output and the codec determine the result: a decode
error or an empty decode yields `(nil, err)`; otherwise the first decoded
commit is returned. `hash` selects the ref in the external command only. -/
def GitShow (u : JsonUnmarshal) (output rootDir hash : String) :
    Option GitCommitCli × Option GoError :=
  let pr := processGitLogOutput u output rootDir
  if pr.2.isSome || pr.1.length == 0 then (none, pr.2)
  else (pr.1.head?, none)

/-- Embeds `GetCommitsForTag` (lines 60-62): delegates to `GitShow` with
the tag as ref. -/
def GetCommitsForTag (u : JsonUnmarshal) (output checkoutPath tag : String) :
    Option GitCommitCli × Option GoError :=
  GitShow u output checkoutPath tag

/-- Embeds `GetCommitForHash` (lines 64-67): delegates to `GitShow` with
the hash as ref. -/
def GetCommitForHash (u : JsonUnmarshal) (output checkoutPath commitHash : String) :
    Option GitCommitCli × Option GoError :=
  GitShow u output checkoutPath commitHash

/-- Embeds `openGitRepo` (lines 80-90). `absErr` is the error component of
`filepath.Abs(path)` and `statErr` that of `fst.Stat(".git")`, both
external collaborators. The Go code returns `err` when `!os.IsNotExist(err)`
and `nil` otherwise. -/
def openGitRepo (absErr statErr : Option GoError) : Option GoError :=
  match absErr with
  | some e => some e
  | none => if !(isNotExist statErr) then statErr else none

/-- Embeds `OpenRepoPlain` (lines 49-58): any `openGitRepo` error is
propagated with no handle; otherwise a handle rooted at `checkoutPath`. -/
def OpenRepoPlain (absErr statErr : Option GoError) (checkoutPath : String) :
    Except GoError GitRepository :=
  match openGitRepo absErr statErr with
  | some e => Except.error e
  | none => Except.ok { rootDir := checkoutPath }

/-- Embeds `GetCommitStats` (lines 182-190). `fetch` stands for
`FetchDiffStatBetweenCommits` (defined outside the provided source file,
signature `(revisionA, revisionB, checkoutPath) → (fileStat, errorMsg,
err)`) and `getFileStat` for the decoder `getFileStat` (also external);
`β` is the FileStats payload type. A fetch error is propagated with no
stats; otherwise the raw stat text is decoded. -/
def GetCommitStats {β : Type}
    (fetch : String → String → String → String × String × Option GoError)
    (getFileStat : String → Option β × Option GoError)
    (commit : GitCommitCli) : Option β × Option GoError :=
  let gitCommit := GetCommit commit
  let r := fetch gitCommit.Commit "" gitCommit.CheckoutPath
  match r.2.2 with
  | some e => (none, some e)
  | none => getFileStat r.1

/-- Spec-side definition (§4.1 precedence table, for refinement against
`getCommandForLogRange`): the single range argument chosen from
`(branchRef, from, to)`. -/
def specRange (branchRef fromHash toHash : String) : String :=
  if fromHash ≠ "" ∧ toHash ≠ "" then fromHash ++ "^.." ++ toHash
  else if fromHash ≠ "" then fromHash ++ "^.." ++ branchRef
  else if toHash ≠ "" then toHash
  else branchRef

/-! ### Helper lemmas (shared; not tied to any single claim) -/

/-- A non-empty string has non-zero length, in the Boolean form the guard
of `processGitLogOutput` uses. -/
theorem strLength_ne_zero (s : String) (h : s ≠ "") : (s.length == 0) = false := by
  cases s with
  | mk d =>
    cases d with
    | nil => exact absurd rfl h
    | cons a as => rfl

/-- Unfolding equation of `processGitLogOutput` on non-empty input: the
codec is consulted exactly on the bracket-wrapped, last-character-stripped
text, and its verdict determines the whole result. -/
theorem processGitLogOutput_ne_empty (u : JsonUnmarshal) (out rootDir : String)
    (h : out ≠ "") :
    processGitLogOutput u out rootDir =
      (match u ("[" ++ stripLast out ++ "]") with
       | Except.error e => ([], some e)
       | Except.ok l =>
           (l.map (fun f =>
             { GitCommitBase :=
               { Commit := f.Commit
                 Author := f.Commiter.Name ++ " <" ++ f.Commiter.Email ++ ">"
                 Date := f.Commiter.Date
                 Message := f.Subject ++ "\n" ++ f.Body
                 CheckoutPath := rootDir } }), none)) := by
  unfold processGitLogOutput
  rw [strLength_ne_zero out h]
  rfl

/-! ### Claim theorems -/

/-- C5: decoding an empty raw output string yields an empty commit
sequence and no error, for every codec and root directory. -/
theorem processGitLogOutput_empty_is_ok (u : JsonUnmarshal) (rootDir : String) :
    processGitLogOutput u "" rootDir = ([], none) := rfl

/-- C3: `getCommandForLogRange`, invoked as `GetCommits` invokes it (default
range `[branchRef]`), produces exactly the range argument of the four-case
precedence table `specRange`: both set gives from^..to, only from gives
from^..branchRef, only to gives to, neither gives branchRef. -/
theorem getCommandForLogRange_matches_specRange (branchRef fromHash toHash : String)
    (baseCmdArgs extraCmdArgs : List String) :
    getCommandForLogRange branchRef fromHash toHash [branchRef] baseCmdArgs extraCmdArgs =
      baseCmdArgs ++ ([specRange branchRef fromHash toHash] ++ extraCmdArgs) := by
  unfold getCommandForLogRange specRange
  by_cases h1 : fromHash = "" <;> by_cases h2 : toHash = "" <;> simp [h1, h2]

/-- C10: in all four range branches, the constructed log command argument
list is the base arguments, then the single range argument, then the extra
arguments, so the count cap, the date format and the output template always
follow the range arguments. -/
theorem gitLogCmdArgs_base_range_extra (branchRef rootDir : String) (numCommits : Int)
    (fromHash toHash : String) :
    gitLogCmdArgs branchRef rootDir numCommits fromHash toHash =
      ["-C", rootDir, "log"] ++ [specRange branchRef fromHash toHash] ++
        ["-n", toString numCommits, "--date=iso-strict", GITFORMAT] := by
  unfold gitLogCmdArgs getCommandForLogRange specRange
  by_cases h1 : fromHash = "" <;> by_cases h2 : toHash = "" <;> simp [h1, h2]

/-- C2: evaluation of the open-repository bug. At a checkout path whose
version-control metadata is absent (the `.git` stat reports not-found),
`OpenRepoPlain` returns an ordinary repository handle and no error, instead
of the `NotARepositoryError` the spec requires: `!os.IsNotExist(err)` in
`openGitRepo` inverts the intended check, so the not-found case falls
through to success. The stat-success case (second conjunct) behaves as the
claim states. -/
theorem openRepoPlain_missing_metadata_succeeds :
    OpenRepoPlain none (some GoError.notExist) "/work/checkout" =
        Except.ok { rootDir := "/work/checkout" } ∧
    OpenRepoPlain none none "/work/checkout" =
        Except.ok { rootDir := "/work/checkout" } :=
  ⟨rfl, rfl⟩

/-- C4: on every non-empty raw output whose repaired text (last character
stripped, wrapped in array brackets) is rejected by the JSON codec,
`processGitLogOutput` returns the error and an empty commit list: no
partial batch accompanies an error. -/
theorem processGitLogOutput_parse_failure_discards_batch (u : JsonUnmarshal)
    (out rootDir : String) (e : GoError) (h1 : out ≠ "")
    (h2 : u ("[" ++ stripLast out ++ "]") = Except.error e) :
    processGitLogOutput u out rootDir = ([], some e) := by
  rw [processGitLogOutput_ne_empty u out rootDir h1, h2]

/-- C4 witness: a concrete non-empty output with a rejecting codec yields
the empty list and the error. -/
theorem processGitLogOutput_parse_failure_witness :
    processGitLogOutput (fun _ => Except.error (GoError.ioError "invalid json"))
        "x\"," "/repo" = ([], some (GoError.ioError "invalid json")) :=
  processGitLogOutput_parse_failure_discards_batch
    (fun _ => Except.error (GoError.ioError "invalid json"))
    "x\"," "/repo" (GoError.ioError "invalid json") (by decide) rfl

/-- C1 counterexample: `GetCommitForHash` on output decoding to zero
commits (here: empty process output, the spec's own "ref does not exist"
scenario) returns a nil commit together with a nil error — it does not
fail, contradicting the claimed `NotFoundError`. -/
theorem getCommitForHash_empty_decode_returns_nil_nil :
    GetCommitForHash (fun _ => Except.ok []) "" "/repo" "deadbeef" = (none, none) := rfl

/-- C1 amended: whenever the show output decodes to zero commits with no
decode error, `GitShow` (hence `GetCommitForHash` and `GetCommitsForTag`)
returns a nil commit and a nil error; no `NotFoundError` (or any error) is
raised. -/
theorem gitShow_zero_commits_nil_error (u : JsonUnmarshal)
    (output rootDir hash : String)
    (h : processGitLogOutput u output rootDir = ([], none)) :
    GitShow u output rootDir hash = (none, none) := by
  simp [GitShow, h]

/-- C1 amended witness: concrete zero-commit decode gives `(none, none)`. -/
theorem gitShow_zero_commits_nil_error_witness :
    GitShow (fun _ => Except.ok []) "" "/repo" "v1.2.3" = (none, none) :=
  gitShow_zero_commits_nil_error (fun _ => Except.ok []) "" "/repo" "v1.2.3" rfl

/-- C9: when the show output decodes to more than one commit (and no
error), `GitShow` returns the first decoded commit and a nil error,
silently ignoring the rest. -/
theorem gitShow_multiple_returns_first (u : JsonUnmarshal)
    (output rootDir hash : String) (a b : GitCommitCli) (rest : List GitCommitCli)
    (h : processGitLogOutput u output rootDir = (a :: b :: rest, none)) :
    GitShow u output rootDir hash = (some a, none) := by
  simp [GitShow, h]

/-- C9 witness: a codec decoding two fragments makes `GitShow` return the
first resulting commit with no error. -/
theorem gitShow_multiple_returns_first_witness :
    GitShow (fun t => if t = "[x]" then Except.ok
        ([⟨"a1", ⟨"Ann", "ann@x", "2024-01-01T00:00:00+00:00"⟩, "s1", "b1"⟩,
          ⟨"a2", ⟨"Bob", "bob@x", "2024-01-02T00:00:00+00:00"⟩, "s2", "b2"⟩] :
          List GitCommitFormat)
      else Except.error (GoError.ioError "e")) "x," "/r" "HEAD" =
      (some ⟨⟨"a1", "Ann <ann@x>", "2024-01-01T00:00:00+00:00", "s1\nb1", "/r"⟩⟩,
        none) :=
  gitShow_multiple_returns_first _ "x," "/r" "HEAD"
    ⟨⟨"a1", "Ann <ann@x>", "2024-01-01T00:00:00+00:00", "s1\nb1", "/r"⟩⟩
    ⟨⟨"a2", "Bob <bob@x>", "2024-01-02T00:00:00+00:00", "s2\nb2", "/r"⟩⟩ [] rfl

/-- C6: on every non-empty raw output whose repaired text decodes to the
fragment list `list`, `processGitLogOutput` returns exactly one commit per
fragment, in the fragment order, with author `Name <email>` from the
committer fields, message `subject`, newline, `body`, the date copied
verbatim, and the checkout path equal to the `rootDir` argument. -/
theorem processGitLogOutput_success_builds_commits (u : JsonUnmarshal)
    (out rootDir : String) (list : List GitCommitFormat) (h1 : out ≠ "")
    (h2 : u ("[" ++ stripLast out ++ "]") = Except.ok list) :
    processGitLogOutput u out rootDir =
      (list.map (fun f =>
        { GitCommitBase :=
          { Commit := f.Commit
            Author := f.Commiter.Name ++ " <" ++ f.Commiter.Email ++ ">"
            Date := f.Commiter.Date
            Message := f.Subject ++ "\n" ++ f.Body
            CheckoutPath := rootDir } }), none) := by
  rw [processGitLogOutput_ne_empty u out rootDir h1, h2]

/-- C6 witness: two concrete fragments decode to two commits in order with
the concatenated author and message fields. -/
theorem processGitLogOutput_success_builds_commits_witness :
    processGitLogOutput (fun t => if t = "[ab]" then Except.ok
        ([⟨"c1", ⟨"Nia", "nia@h", "2023-05-05T10:00:00+02:00"⟩, "sub1", "body1"⟩,
          ⟨"c2", ⟨"Omar", "omar@h", "2023-05-06T11:00:00+02:00"⟩, "sub2", "body2"⟩] :
          List GitCommitFormat)
      else Except.error (GoError.ioError "bad")) "ab," "/checkout" =
      ([⟨⟨"c1", "Nia <nia@h>", "2023-05-05T10:00:00+02:00", "sub1\nbody1", "/checkout"⟩⟩,
        ⟨⟨"c2", "Omar <omar@h>", "2023-05-06T11:00:00+02:00", "sub2\nbody2", "/checkout"⟩⟩],
        none) :=
  processGitLogOutput_success_builds_commits _ "ab," "/checkout"
    ([⟨"c1", ⟨"Nia", "nia@h", "2023-05-05T10:00:00+02:00"⟩, "sub1", "body1"⟩,
      ⟨"c2", ⟨"Omar", "omar@h", "2023-05-06T11:00:00+02:00"⟩, "sub2", "body2"⟩] :
      List GitCommitFormat) (by decide) rfl

/-- C8: the repair step removes exactly the final character of the raw
output, whatever that character is (no check that it is the separator
comma), and hands the bracket-wrapped remainder to the codec; so for an
input `s ++ [c]` with any final character `c`, decoding succeeds exactly
when the codec accepts `[s]` — in particular a well-formed fragment with no
trailing separator loses its closing brace and is decoded only if the codec
accepts that truncated text, while any trailing junk character is accepted
as long as the preceding text forms valid fragments. -/
theorem repair_strips_any_final_char (u : JsonUnmarshal) (rootDir s : String)
    (c : Char) (out : String) (hout : out.data = s.data ++ [c]) :
    stripLast out = s ∧
    (∀ l, u ("[" ++ s ++ "]") = Except.ok l →
        (processGitLogOutput u out rootDir).2 = none) ∧
    (∀ e, u ("[" ++ s ++ "]") = Except.error e →
        processGitLogOutput u out rootDir = ([], some e)) := by
  have hstrip : stripLast out = s := by
    unfold stripLast
    rw [hout, List.dropLast_concat]
  have hne : out ≠ "" := by
    intro hcontra
    subst hcontra
    have h0 : ([] : List Char) = s.data ++ [c] := hout
    simp at h0
  refine ⟨hstrip, ?_, ?_⟩
  · intro l hl
    rw [processGitLogOutput_ne_empty u out rootDir hne, hstrip, hl]
  · intro e he
    rw [processGitLogOutput_ne_empty u out rootDir hne, hstrip, he]

/-- C8 witness: the final character `;` (not a comma) is stripped; the
codec is consulted on the bracket-wrapped remainder, success for an
accepting codec, whole-batch error for a rejecting codec. -/
theorem repair_strips_any_final_char_witness :
    stripLast "cd;" = "cd" ∧
    (processGitLogOutput
        (fun t => if t = "[cd]" then Except.ok [] else Except.error (GoError.ioError "z"))
        "cd;" "/r").2 = none ∧
    processGitLogOutput (fun _ => Except.error (GoError.ioError "z")) "cd;" "/r" =
      ([], some (GoError.ioError "z")) := by
  have h1 := repair_strips_any_final_char
    (fun t => if t = "[cd]" then Except.ok [] else Except.error (GoError.ioError "z"))
    "/r" "cd" (Char.ofNat 59) "cd;" rfl
  have h2 := repair_strips_any_final_char
    (fun _ => Except.error (GoError.ioError "z"))
    "/r" "cd" (Char.ofNat 59) "cd;" rfl
  exact ⟨h1.1, h1.2.1 [] rfl, h2.2.2 (GoError.ioError "z") rfl⟩

/-- C7: `GetCommitStats` consults the diff-stat fetcher only at
`(revisionA, revisionB, checkoutPath) = (commit hash, "", commit checkout
path)` — two fetchers agreeing there give identical results — and a fetch
error is propagated with no file stats. -/
theorem getCommitStats_parent_diff_delegation {β : Type}
    (fetch fetch2 : String → String → String → String × String × Option GoError)
    (getFileStat : String → Option β × Option GoError) (commit : GitCommitCli) :
    (fetch (GetCommit commit).Commit "" (GetCommit commit).CheckoutPath =
        fetch2 (GetCommit commit).Commit "" (GetCommit commit).CheckoutPath →
      GetCommitStats fetch getFileStat commit = GetCommitStats fetch2 getFileStat commit) ∧
    (∀ o m e,
      fetch (GetCommit commit).Commit "" (GetCommit commit).CheckoutPath = (o, m, some e) →
      GetCommitStats fetch getFileStat commit = (none, some e)) := by
  constructor
  · intro h
    simp only [GetCommitStats, h]
  · intro o m e h
    simp [GetCommitStats, h]

/-- C7 witness: with a concrete commit the fetcher is invoked at the
commit's own hash, empty second revision and the commit's checkout path (a
fetcher redefined away from that point gives the same result), and a
concrete fetch error is propagated with no stats. -/
theorem getCommitStats_parent_diff_delegation_witness :
    GetCommitStats
        (fun a b c => (a ++ b ++ c, "", some (GoError.ioError "diff failed")))
        (fun _ => ((some 0 : Option Nat), none))
        ⟨⟨"abc123", "Ann <ann@x>", "2024-01-01", "s\nb", "/work"⟩⟩ =
      GetCommitStats
        (fun a b c => if a = "zzz" then ("other", "", none)
          else (a ++ b ++ c, "", some (GoError.ioError "diff failed")))
        (fun _ => ((some 0 : Option Nat), none))
        ⟨⟨"abc123", "Ann <ann@x>", "2024-01-01", "s\nb", "/work"⟩⟩ ∧
    GetCommitStats
        (fun a b c => (a ++ b ++ c, "", some (GoError.ioError "diff failed")))
        (fun _ => ((some 0 : Option Nat), none))
        ⟨⟨"abc123", "Ann <ann@x>", "2024-01-01", "s\nb", "/work"⟩⟩ =
      (none, some (GoError.ioError "diff failed")) :=
  ⟨(getCommitStats_parent_diff_delegation
      (fun a b c => (a ++ b ++ c, "", some (GoError.ioError "diff failed")))
      (fun a b c => if a = "zzz" then ("other", "", none)
        else (a ++ b ++ c, "", some (GoError.ioError "diff failed")))
      (fun _ => ((some 0 : Option Nat), none))
      ⟨⟨"abc123", "Ann <ann@x>", "2024-01-01", "s\nb", "/work"⟩⟩).1 rfl,
   (getCommitStats_parent_diff_delegation
      (fun a b c => (a ++ b ++ c, "", some (GoError.ioError "diff failed")))
      (fun a b c => (a ++ b ++ c, "", some (GoError.ioError "diff failed")))
      (fun _ => ((some 0 : Option Nat), none))
      ⟨⟨"abc123", "Ann <ann@x>", "2024-01-01", "s\nb", "/work"⟩⟩).2
     "abc123/work" "" (GoError.ioError "diff failed") rfl⟩
